import Mathlib

/-
  Verification development for the smart-resume-enhancer repository.

  The Python sources `document_processor.py` and `app.py` are shallowly
  embedded below.  Text is modelled as `List Char`; Python floats are
  modelled as exact rationals (ℚ); fallible code returns `Option`.
  The ASCII fragment of Python's `str.lower` is modelled per character;
  all string literals appearing in the program are ASCII.
-/

set_option maxRecDepth 20000

namespace Resume

/-! ### Python string primitives -/

/-- The whitespace characters recognised by Python's `str.split()` /
`str.strip()` (ASCII fragment). -/
def pyIsSpace (c : Char) : Bool :=
  c = ' ' || c = '\t' || c = '\n' || c = '\r' || c = '\x0b' || c = '\x0c'

/-- Python `str.lower` on one character (ASCII fragment: `A`..`Z`, i.e.
code points 65..90, are shifted by 32). -/
def lowerChar (c : Char) : Char :=
  if 65 ≤ c.toNat ∧ c.toNat ≤ 90 then Char.ofNat (c.toNat + 32) else c

/-- Python `str.lower` on a string. -/
def pyLower (s : List Char) : List Char := s.map lowerChar

/-- Python `str.strip(chars)` / `str.strip()`: drop characters satisfying
`p` from both ends. -/
def stripP (p : Char → Bool) (s : List Char) : List Char :=
  ((s.dropWhile p).reverse.dropWhile p).reverse

/-- Python's substring test `needle in hay`. -/
def subIn (n : List Char) : List Char → Bool
  | [] => n.isPrefixOf ([] : List Char)
  | c :: t => n.isPrefixOf (c :: t) || subIn n t

/-- Helper for `wsplit`: `acc` is the current (reversed) partial token. -/
def wsplitAux : List Char → List Char → List (List Char)
  | [], acc => if acc.isEmpty then [] else [acc.reverse]
  | c :: t, acc =>
    if pyIsSpace c then
      if acc.isEmpty then wsplitAux t [] else acc.reverse :: wsplitAux t []
    else wsplitAux t (c :: acc)

/-- Python `str.split()` (no argument): split on runs of whitespace,
discarding empty fields. -/
def wsplit (s : List Char) : List (List Char) := wsplitAux s []

/-- Kernel-evaluable `min` on ℚ, written out so it evaluates in the kernel. -/
def ratMin (a b : ℚ) : ℚ := if a ≤ b then a else b

/-- Kernel-evaluable `max` on ℚ. -/
def ratMax (a b : ℚ) : ℚ := if b ≤ a then a else b

/-- Helper for `pySplitSep`: first field of the split, and the remaining
fields. -/
def splitSepAux (sep : Char) : List Char → List Char × List (List Char)
  | [] => ([], [])
  | c :: t =>
    let r := splitSepAux sep t
    if c = sep then ([], r.1 :: r.2) else (c :: r.1, r.2)

/-- Python `str.split(sep)` with a one-character separator: always returns
at least one (possibly empty) field. -/
def pySplitSep (sep : Char) (s : List Char) : List (List Char) :=
  (splitSepAux sep s).1 :: (splitSepAux sep s).2

/-! ### MatchScorer — `document_processor.calculate_ats_score`
(`src/document_processor.py`, lines 48–76) -/

/-- The punctuation characters stripped from each job-description token
(`word.strip('.,;:()"\x27-')`, line 60). -/
def punct : List Char := ['.', ',', ';', ':', '(', ')', '"', '\'', '-']

/-- The fixed stop-word set (line 59). -/
def stopWords : List (List Char) :=
  ["a", "an", "the", "and", "or", "but", "in", "on", "at", "to",
   "for", "with", "by", "is", "are", "was", "were"].map String.toList

/-- The job-description token list before set formation: lower-case,
split on whitespace, keep tokens whose punctuation-stripped lower-cased
form is not a stop word, and strip punctuation (the list comprehension
on line 60). -/
def jobWords (jd : List Char) : List (List Char) :=
  ((wsplit (pyLower jd)).filter
      (fun w => !(stopWords.contains ((stripP (punct.contains ·) w).map lowerChar)))).map
    (stripP (punct.contains ·))

/-- Python `set(...)` on line 60: the unique job-description tokens.  Python set
iteration order is irrelevant here because the code only counts. -/
def jobWordSet (jd : List Char) : List (List Char) := (jobWords jd).dedup

/-- The match test on line 65: `word and len(word) > 2 and word in resume_text`
(with `resume_text` already lower-cased). -/
def matchTest (r : List Char) (w : List Char) : Bool :=
  !w.isEmpty && decide (2 < w.length) && subIn w r

/-- Function `calculate_ats_score` (lines 48–76): count matching unique tokens,
divide by the set size (0 when empty), multiply by 1.5 and clamp to
[0, 1] via `np.clip`. -/
def calculate_ats_score (resume_text job_description : List Char) : ℚ :=
  let r := pyLower resume_text
  let ws := jobWordSet job_description
  let hits : ℕ := ws.countP (matchTest r)
  let score : ℚ := if 0 < ws.length then (hits : ℚ) / (ws.length : ℚ) else 0
  ratMin (ratMax (score * (3 / 2)) 0) 1

/-! #### Spec-side scorer, following the words of claim C1:
"min(max(m/n * 1.5, 0), 1), where n is the number of unique
job-description tokens after lower-casing, whitespace splitting,
punctuation stripping and stop-word removal (including tokens of
length ≤ 2), m is the number of those tokens of length > 2 that occur
as literal substrings of the lower-cased resume text, and the result
is 0 when n = 0." -/

/-- Unique job-description tokens per the claim's pipeline: lower-case,
split on whitespace, strip punctuation, remove stop words, deduplicate. -/
def specUniqueTokens (jd : List Char) : List (List Char) :=
  (((wsplit (pyLower jd)).map (stripP (punct.contains ·))).filter
      (fun w => !(stopWords.contains w))).dedup

/-- The scorer as claim C1 words it. -/
def specScore (resume_text job_description : List Char) : ℚ :=
  let n := (specUniqueTokens job_description).length
  let m := ((specUniqueTokens job_description).filter
      (fun w => decide (2 < w.length) && subIn w (pyLower resume_text))).length
  if n = 0 then 0 else ratMin (ratMax ((m : ℚ) / (n : ℚ) * (3 / 2)) 0) 1

/-! ### Helper lemmas about the primitives -/

theorem lowerChar_lowerChar (c : Char) : lowerChar (lowerChar c) = lowerChar c := by
  by_cases h : 65 ≤ c.toNat ∧ c.toNat ≤ 90
  · have h1 : lowerChar c = Char.ofNat (c.toNat + 32) := by
      unfold lowerChar
      rw [if_pos h]
    rw [h1]
    obtain ⟨h65, h90⟩ := h
    generalize c.toNat = n at h65 h90
    interval_cases n <;> decide
  · have h1 : lowerChar c = c := by
      unfold lowerChar
      rw [if_neg h]
    rw [h1, h1]

theorem lowerChar_fix_of_mem {s : List Char} {c : Char} (h : c ∈ pyLower s) :
    lowerChar c = c := by
  unfold pyLower at h
  obtain ⟨x, _, rfl⟩ := List.mem_map.1 h
  exact lowerChar_lowerChar x

theorem mem_of_mem_stripP {p : Char → Bool} {s : List Char} {c : Char}
    (h : c ∈ stripP p s) : c ∈ s := by
  unfold stripP at h
  rw [List.mem_reverse] at h
  have h2 := (List.dropWhile_sublist (l := (s.dropWhile p).reverse) p).mem h
  rw [List.mem_reverse] at h2
  exact (List.dropWhile_sublist (l := s) p).mem h2

theorem mem_of_mem_wsplitAux :
    ∀ {s acc w : List Char}, w ∈ wsplitAux s acc →
      ∀ {c : Char}, c ∈ w → c ∈ s ∨ c ∈ acc := by
  intro s
  induction s with
  | nil =>
    intro acc w hw c hc
    by_cases h : acc.isEmpty
    · rw [wsplitAux, if_pos h] at hw
      exact absurd hw (List.not_mem_nil w)
    · rw [wsplitAux, if_neg h] at hw
      rcases List.mem_cons.1 hw with h1 | h1
      · subst h1
        exact Or.inr (List.mem_reverse.1 hc)
      · exact absurd h1 (List.not_mem_nil w)
  | cons a t ih =>
    intro acc w hw c hc
    by_cases hsp : pyIsSpace a
    · rw [wsplitAux, if_pos hsp] at hw
      by_cases h : acc.isEmpty
      · rw [if_pos h] at hw
        rcases ih hw hc with h1 | h1
        · exact Or.inl (List.mem_cons_of_mem _ h1)
        · exact absurd h1 (List.not_mem_nil c)
      · rw [if_neg h] at hw
        rcases List.mem_cons.1 hw with h1 | h1
        · subst h1
          exact Or.inr (List.mem_reverse.1 hc)
        · rcases ih h1 hc with h2 | h2
          · exact Or.inl (List.mem_cons_of_mem _ h2)
          · exact absurd h2 (List.not_mem_nil c)
    · rw [wsplitAux, if_neg hsp] at hw
      rcases ih hw hc with h1 | h1
      · exact Or.inl (List.mem_cons_of_mem _ h1)
      · rcases List.mem_cons.1 h1 with h2 | h2
        · exact Or.inl (h2 ▸ List.mem_cons_self _ _)
        · exact Or.inr h2

theorem mem_of_mem_wsplit {s w : List Char} (hw : w ∈ wsplit s) {c : Char}
    (hc : c ∈ w) : c ∈ s := by
  rcases mem_of_mem_wsplitAux hw hc with h | h
  · exact h
  · exact absurd h (List.not_mem_nil c)

theorem map_lowerChar_token {jd w : List Char}
    (hw : w ∈ wsplit (pyLower jd)) :
    (stripP (punct.contains ·) w).map lowerChar = stripP (punct.contains ·) w := by
  have : ∀ c ∈ stripP (punct.contains ·) w, lowerChar c = c := by
    intro c hc
    exact lowerChar_fix_of_mem (mem_of_mem_wsplit hw (mem_of_mem_stripP hc))
  calc (stripP (punct.contains ·) w).map lowerChar
      = (stripP (punct.contains ·) w).map id := List.map_congr_left this
    _ = stripP (punct.contains ·) w := List.map_id _

/-- The code's token list equals the claim's pipeline (map/filter order
commuted, and the redundant second `.lower()` removed). -/
theorem jobWords_eq_spec (jd : List Char) :
    jobWordSet jd = specUniqueTokens jd := by
  unfold jobWordSet jobWords specUniqueTokens
  congr 1
  rw [List.filter_map]
  congr 1
  apply List.filter_congr
  intro w hw
  rw [Function.comp_apply, map_lowerChar_token hw]

theorem matchTest_eq (r : List Char) (w : List Char) :
    matchTest r w = (decide (2 < w.length) && subIn w r) := by
  cases w with
  | nil => simp [matchTest]
  | cons c t => simp [matchTest]

theorem ratMin_eq_min (a b : ℚ) : ratMin a b = min a b := (min_def a b).symm

theorem ratMax_eq_max (a b : ℚ) : ratMax a b = max a b := by
  unfold ratMax
  rw [max_def]
  by_cases h1 : b ≤ a
  · by_cases h2 : a ≤ b
    · rw [if_pos h1, if_pos h2]
      exact le_antisymm h2 h1
    · rw [if_pos h1, if_neg h2]
  · rw [if_neg h1, if_pos (le_of_not_le h1)]

theorem ats_nonneg (r j : List Char) : 0 ≤ calculate_ats_score r j := by
  simp only [calculate_ats_score]
  rw [ratMin_eq_min, ratMax_eq_max]
  exact le_min (le_max_right _ _) zero_le_one

theorem ats_le_one (r j : List Char) : calculate_ats_score r j ≤ 1 := by
  simp only [calculate_ats_score]
  rw [ratMin_eq_min]
  exact min_le_right _ _

/-! ### The score as presented at the boundary — `app.analyze_resume`
(`src/app.py`, lines 84–85): `initial_score_normalized = int(initial_score * 100)` -/

/-- Python `int()` applied to a float/rational: truncation toward zero. -/
def pyInt (q : ℚ) : ℤ := if 0 ≤ q then ⌊q⌋ else ⌈q⌉

/-- Line 85 of `src/app.py`. -/
def initial_score_normalized (r j : List Char) : ℤ :=
  pyInt (calculate_ats_score r j * 100)

/-- Rounding to the nearest integer, as claim C8 words it
(`round(score*100)`). -/
def specRound (q : ℚ) : ℤ := ⌊q + 1 / 2⌋

/-! ### Claims C1, C2, C3, C8 -/

/-- Claim C1: for every resume text and job description,
`calculate_ats_score` returns `min(max(m/n * 1.5, 0), 1)`, where `n` is
the number of unique job-description tokens after lower-casing,
whitespace splitting, punctuation stripping and stop-word removal
(including tokens of length ≤ 2), `m` is the number of those tokens of
length > 2 that occur as literal substrings of the lower-cased resume
text, and the result is 0 when `n = 0`; tokens of length ≤ 2 are never
tested and never matched, yet are counted in the denominator `n`. -/
theorem C1_ats_score_formula (r j : List Char) :
    calculate_ats_score r j = specScore r j := by
  simp only [calculate_ats_score, specScore]
  rw [jobWords_eq_spec]
  by_cases h : (specUniqueTokens j).length = 0
  · rw [if_neg (by omega), if_pos h]
    with_unfolding_all decide
  · rw [if_pos (Nat.pos_of_ne_zero h), if_neg h]
    have hc : (specUniqueTokens j).countP (matchTest (pyLower r)) =
        ((specUniqueTokens j).filter
          (fun w => decide (2 < w.length) && subIn w (pyLower r))).length := by
      rw [← List.countP_eq_length_filter]
      exact List.countP_congr (fun w _ => by rw [matchTest_eq])
    rw [hc]

/-- Claim C2: `calculate_ats_score` is a total function (the embedding
is a Lean function, never raising), its result always lies in [0, 1],
and an empty job description yields score 0. -/
theorem C2_ats_score_safe (r j : List Char) :
    (0 ≤ calculate_ats_score r j ∧ calculate_ats_score r j ≤ 1) ∧
      calculate_ats_score r [] = 0 := by
  refine ⟨⟨ats_nonneg r j, ats_le_one r j⟩, ?_⟩
  with_unfolding_all rfl

/-- The concrete scenario of claim C3. -/
def c3resume : List Char := "Experienced Python developer with AWS skills".toList

/-- The concrete job description of claim C3. -/
def c3jd : List Char :=
  "Looking for a Python developer with AWS and Docker experience".toList

/-- Claim C3 is false: it asserts the unique-token set is
{python, developer, with, aws, docker, experience} and that exactly
python, developer, aws match.  In the code, "with" is a stop word (so it
is not in the set), "looking" is in the set, and "experience" also
matches (as a substring of "experienced"). -/
theorem C3_counterexample :
    ¬ (List.Perm (jobWordSet c3jd)
        (["python", "developer", "with", "aws", "docker", "experience"].map String.toList)
      ∧ List.Perm ((jobWordSet c3jd).filter (matchTest (pyLower c3resume)))
        (["python", "developer", "aws"].map String.toList)) := by
  decide

/-- Claim C3 amended: the unique job-description token set computed
inside `calculate_ats_score` is {looking, python, developer, aws,
docker, experience} ("with" is removed as a stop word), and exactly the
tokens python, developer, aws and experience are counted as matches
("experience" occurs inside "experienced"); the resulting score is 1. -/
theorem C3_amended_tokens_and_matches :
    List.Perm (jobWordSet c3jd)
      (["looking", "python", "developer", "aws", "docker", "experience"].map String.toList)
    ∧ List.Perm ((jobWordSet c3jd).filter (matchTest (pyLower c3resume)))
      (["python", "developer", "aws", "experience"].map String.toList)
    ∧ calculate_ats_score c3resume c3jd = 1 := by
  with_unfolding_all decide

/-- Claim C8 is false: at resume "alpha" and job description
"alpha beta gamma delta" the score is 0.375, the presented integer is
`int(37.5) = 37`, but `round(37.5) = 38`. -/
theorem C8_counterexample :
    ¬ (initial_score_normalized "alpha".toList "alpha beta gamma delta".toList =
        specRound (calculate_ats_score "alpha".toList "alpha beta gamma delta".toList * 100)) := by
  have hs : calculate_ats_score "alpha".toList "alpha beta gamma delta".toList = 3 / 8 := by
    with_unfolding_all decide
  have h37 : ⌊(3 / 8 * 100 : ℚ)⌋ = (37 : ℤ) := by
    rw [Int.floor_eq_iff]
    norm_num
  have h38 : ⌊(3 / 8 * 100 + 1 / 2 : ℚ)⌋ = (38 : ℤ) := by
    rw [Int.floor_eq_iff]
    norm_num
  simp only [initial_score_normalized, specRound, pyInt, hs]
  rw [if_pos (by norm_num), h37, h38]
  omega

/-- Claim C8 amended: the integer-percent value presented at the
boundary equals the truncation `⌊score*100⌋` (not the rounding) of the
score, for every score `calculate_ats_score` can return. -/
theorem C8_amended_truncation (r j : List Char) :
    initial_score_normalized r j = ⌊calculate_ats_score r j * 100⌋ := by
  unfold initial_score_normalized pyInt
  rw [if_pos (mul_nonneg (ats_nonneg r j) (by norm_num))]

/-! ### DocumentRenderer — `document_processor.create_docx`
(`src/document_processor.py`, lines 78–131) -/

/-- The section-heading lexicon (lines 85–88, repeated on lines 142–145). -/
def sectionHeadings : List (List Char) :=
  ["EXPERIENCE", "EDUCATION", "PROJECTS", "SKILLS",
   "CERTIFICATIONS & WORKSHOPS", "EXTRACURRICULARS"].map String.toList

/-- The skill-category lexicon (lines 109–110, 147–150). -/
def skillCategories : List (List Char) :=
  ["Programming Languages:", "Tools & Technologies:",
   "Soft Skills:", "Languages:"].map String.toList

/-- The special role/project-title lexicon (lines 117–119, 152–156). -/
def specialTitles : List (List Char) :=
  ["Frontend Developer Intern", "Event Tech Innovator",
   "Real-time Emergency Response Application",
   "Student Feedback Analyzer"].map String.toList

/-- One DOCX run's formatting: bold/italic flags and an optional explicit
point size (None = the document default). -/
structure DRun where
  bold : Bool
  italic : Bool
  size : Option ℕ
deriving DecidableEq

/-- One output paragraph: its text and its single run's formatting. -/
structure DPara where
  txt : List Char
  run : DRun
deriving DecidableEq

/-- Python `not paragraph.strip()`: every character is whitespace. -/
def isBlank (p : List Char) : Bool := p.all pyIsSpace

/-- The per-paragraph body of `create_docx`'s loop (lines 95–126): the
heading for-loop with break (equivalent to an any-test), then the
if/elif chain for skill categories, special titles, and plain text. -/
def docxPara (p : List Char) : DPara :=
  if sectionHeadings.any (fun h => subIn h p) then ⟨p, true, false, some 14⟩
  else if skillCategories.any (fun h => subIn h p) then ⟨p, true, false, none⟩
  else if specialTitles.any (fun h => subIn h p) then ⟨p, false, true, none⟩
  else ⟨p, false, false, none⟩

/-- Function `create_docx` (lines 78–131): split the text on newlines, skip blank
paragraphs, and emit one formatted paragraph per remaining paragraph. -/
def create_docx (t : List Char) : List DPara :=
  ((pySplitSep '\n' t).filter (fun p => !(isBlank p))).map docxPara

/-- Python `'\n'.join(...)`. -/
def joinNl : List (List Char) → List Char
  | [] => []
  | [p] => p
  | p :: q :: rest => p ++ '\n' :: joinNl (q :: rest)

/-- The DOCX branch of `extract_text` (lines 41–44): the paragraph texts
joined with single newlines.  A DOCX document is modelled by its list of
paragraph texts, which is all this branch reads. -/
def extract_text_docx (paras : List (List Char)) : List Char := joinNl paras

/-- The spec's paragraph classification (spec §4.4), first match wins. -/
inductive PClass where
  | heading
  | skillCat
  | specialTitle
  | body
deriving DecidableEq

/-- Classify one paragraph by the three lexicons, in precedence order. -/
def classify (p : List Char) : PClass :=
  if sectionHeadings.any (fun h => subIn h p) then .heading
  else if skillCategories.any (fun h => subIn h p) then .skillCat
  else if specialTitles.any (fun h => subIn h p) then .specialTitle
  else .body

/-- The run formatting the spec assigns to each paragraph class. -/
def runFor : PClass → DRun
  | .heading => ⟨true, false, some 14⟩
  | .skillCat => ⟨true, false, none⟩
  | .specialTitle => ⟨false, true, none⟩
  | .body => ⟨false, false, none⟩

theorem docxPara_txt (p : List Char) : (docxPara p).txt = p := by
  unfold docxPara
  split_ifs <;> rfl

theorem docxPara_eq_classify (p : List Char) :
    docxPara p = ⟨p, runFor (classify p)⟩ := by
  unfold docxPara classify
  split_ifs <;> rfl

theorem create_docx_texts (t : List Char) :
    (create_docx t).map DPara.txt =
      (pySplitSep '\n' t).filter (fun p => !(isBlank p)) := by
  unfold create_docx
  rw [List.map_map]
  have h : ∀ p ∈ (pySplitSep '\n' t).filter (fun p => !(isBlank p)),
      (DPara.txt ∘ docxPara) p = id p := fun p _ => docxPara_txt p
  rw [List.map_congr_left h, List.map_id]

theorem splitSepAux_no_sep {sep : Char} :
    ∀ {p : List Char}, sep ∉ p → splitSepAux sep p = (p, []) := by
  intro p
  induction p with
  | nil => intro _; rfl
  | cons c t ih =>
    intro h
    have hc : ¬ c = sep := fun hcs => h (hcs ▸ List.mem_cons_self _ _)
    have ht : sep ∉ t := fun hts => h (List.mem_cons_of_mem _ hts)
    simp only [splitSepAux, ih ht, if_neg hc]

theorem splitSepAux_append {sep : Char} {r : List Char} :
    ∀ {p : List Char}, sep ∉ p →
      splitSepAux sep (p ++ sep :: r) =
        (p, (splitSepAux sep r).1 :: (splitSepAux sep r).2) := by
  intro p
  induction p with
  | nil =>
    intro _
    simp [splitSepAux]
  | cons c t ih =>
    intro h
    have hc : ¬ c = sep := fun hcs => h (hcs ▸ List.mem_cons_self _ _)
    have ht : sep ∉ t := fun hts => h (List.mem_cons_of_mem _ hts)
    simp only [List.cons_append, splitSepAux, if_neg hc]
    rw [show splitSepAux sep (t.append (sep :: r)) =
          (t, (splitSepAux sep r).1 :: (splitSepAux sep r).2) from ih ht]

/-! ### Claims C5, C6, C9, C10 -/

/-- Claim C10: the DOCX produced by `create_docx` contains exactly the
input paragraphs whose text is not whitespace-only, verbatim and in
input order; blank paragraphs produce no output paragraph at all (the
model's DOCX has no other content, matching the code, which adds
nothing for skipped paragraphs). -/
theorem C10_docx_keeps_nonblank (t : List Char) :
    (create_docx t).map DPara.txt =
      (pySplitSep '\n' t).filter (fun p => !(isBlank p)) :=
  create_docx_texts t

/-- Claim C6: each non-blank paragraph becomes exactly one output
paragraph whose formatting follows first-match-wins classification
(heading → bold 14pt, skill category → bold, special title → italic,
otherwise plain), and `create_docx "EXPERIENCE\nDid things"` yields a
bold first paragraph and a plain second one. -/
theorem C6_docx_first_match_formatting :
    (∀ t : List Char,
      create_docx t =
        ((pySplitSep '\n' t).filter (fun p => !(isBlank p))).map
          (fun p => ⟨p, runFor (classify p)⟩))
    ∧ create_docx "EXPERIENCE\nDid things".toList =
        [⟨"EXPERIENCE".toList, ⟨true, false, some 14⟩⟩,
         ⟨"Did things".toList, ⟨false, false, none⟩⟩] := by
  constructor
  · intro t
    unfold create_docx
    exact List.map_congr_left (fun p _ => docxPara_eq_classify p)
  · decide

/-- Claim C5 is false as stated: for input "A\n \nB" the whitespace-only
middle paragraph is dropped by `create_docx`, so extracting the produced
DOCX does not yield back every paragraph's text of the original. -/
theorem C5_counterexample :
    ((pySplitSep '\n' "A\n \nB".toList).all
      (fun p =>
        (pySplitSep '\n'
            (extract_text_docx ((create_docx "A\n \nB".toList).map DPara.txt))).contains
          p)) = false := by
  decide

/-- Claim C5 amended: extracting the DOCX produced by `create_docx`
yields exactly the non-whitespace-only paragraphs of the original text,
verbatim and in order, joined by single newlines; blank paragraphs are
lost. -/
theorem C5_roundtrip_amended (t : List Char) :
    extract_text_docx ((create_docx t).map DPara.txt) =
      joinNl ((pySplitSep '\n' t).filter (fun p => !(isBlank p))) := by
  unfold extract_text_docx
  rw [create_docx_texts]

/-- Claim C9: DOCX extraction joins the paragraph texts in order with
exactly one newline between consecutive paragraphs (so splitting the
result on newlines recovers the paragraphs, empty ones included), and
the paragraph list ["SKILLS", "", "Python, Go"] extracts to
"SKILLS\n\nPython, Go". -/
theorem C9_docx_extract_join :
    (∀ ps : List (List Char), ps ≠ [] → (∀ p ∈ ps, '\n' ∉ p) →
      pySplitSep '\n' (extract_text_docx ps) = ps)
    ∧ extract_text_docx ["SKILLS".toList, [], "Python, Go".toList] =
        "SKILLS\n\nPython, Go".toList := by
  constructor
  · intro ps
    induction ps with
    | nil => intro h _; exact absurd rfl h
    | cons p rest ih =>
      intro _ hmem
      have hp : '\n' ∉ p := hmem p (List.mem_cons_self _ _)
      cases rest with
      | nil =>
        simp only [extract_text_docx, joinNl, pySplitSep, splitSepAux_no_sep hp]
      | cons q rest2 =>
        have hrest : pySplitSep '\n' (extract_text_docx (q :: rest2)) = q :: rest2 :=
          ih (List.cons_ne_nil _ _) (fun x hx => hmem x (List.mem_cons_of_mem _ hx))
        simp only [extract_text_docx] at hrest ⊢
        have hj : joinNl (p :: q :: rest2) = p ++ '\n' :: joinNl (q :: rest2) := rfl
        rw [hj]
        simp only [pySplitSep, splitSepAux_append hp]
        simp only [pySplitSep] at hrest
        rw [hrest]
  · decide

/-- Witness for the universally quantified part of `C9_docx_extract_join`
at the concrete paragraph list of the claim. -/
theorem C9_docx_extract_join_witness :
    pySplitSep '\n'
        (extract_text_docx ["SKILLS".toList, [], "Python, Go".toList]) =
      ["SKILLS".toList, [], "Python, Go".toList] :=
  C9_docx_extract_join.1 _ (by decide) (by decide)

/-! ### Score-annotation parsing — `app.analyze_resume`
(`src/app.py`, lines 88–101) -/

/-- The literal scanned for (`'MATCH SCORE' in line`, line 89). -/
def matchScoreTag : List Char := "MATCH SCORE".toList

/-- The digits-only part of Python `int(str)`: value of a nonempty string
of decimal digits (Python's underscore digit grouping is not modelled;
no input considered here uses it). -/
def digitsVal (ds : List Char) : Option ℤ :=
  if ds.isEmpty then none
  else if ds.all Char.isDigit then
    some (ds.foldl (fun a c => 10 * a + ((c.toNat : ℤ) - 48)) 0)
  else none

/-- Python `int()` on a string: optional surrounding whitespace, an
optional sign, then digits; anything else raises `ValueError` (here:
`none`). -/
def pyToInt (s : List Char) : Option ℤ :=
  match stripP pyIsSpace s with
  | '+' :: t => digitsVal t
  | '-' :: t => (digitsVal t).map (fun z => -z)
  | t => digitsVal t

/-- The score extraction of `analyze_resume` (app.py lines 89–93): keep
the lines containing "MATCH SCORE"; if any, take the first, split it on
':' and index field 1 (an `IndexError` when there is no colon), strip
whitespace, drop every '%', and parse the rest as an integer.  The
enclosing `try/except` maps any failure to the fallback, modelled as
`none`. -/
def parse_match_score (s : List Char) : Option ℤ :=
  match (pySplitSep '\n' s).filter (fun l => subIn matchScoreTag l) with
  | [] => none
  | l :: _ =>
    match (pySplitSep ':' l)[1]? with
    | none => none
    | some seg => pyToInt ((stripP pyIsSpace seg).filter (fun c => c != '%'))

/-- "Everything after the first colon" (claim C4's wording); nothing when
the line has no colon. -/
def afterFirstColon (l : List Char) : Option (List Char) :=
  match l.dropWhile (fun c => c != ':') with
  | [] => none
  | _ :: t => some t

/-- The parse as claim C4 words it: first line containing the tag,
everything after the first colon, strip whitespace and '%', parse int. -/
def claimParse (s : List Char) : Option ℤ :=
  match (pySplitSep '\n' s).find? (fun l => subIn matchScoreTag l) with
  | none => none
  | some l =>
    match afterFirstColon l with
    | none => none
    | some rest => pyToInt ((stripP pyIsSpace rest).filter (fun c => c != '%'))

/-- The amended claim's parse: the text between the first and second
colons (Python `line.split(':')[1]`), not everything after the first
colon. -/
def specParseBetween (s : List Char) : Option ℤ :=
  match (pySplitSep '\n' s).find? (fun l => subIn matchScoreTag l) with
  | none => none
  | some l =>
    match afterFirstColon l with
    | none => none
    | some rest =>
        pyToInt ((stripP pyIsSpace (rest.takeWhile (fun c => c != ':'))).filter
          (fun c => c != '%'))

/-! Infrastructure: `subIn` really is substring containment, and the
fields of `pySplitSep` are contiguous pieces of the input. -/

theorem subIn_correct (n : List Char) :
    ∀ hay : List Char, subIn n hay = true ↔ n <:+: hay := by
  intro hay
  induction hay with
  | nil =>
    simp only [subIn, List.isPrefixOf_iff_prefix, List.prefix_nil, List.infix_nil]
  | cons c t ih =>
    simp only [subIn, Bool.or_eq_true, List.isPrefixOf_iff_prefix, ih,
      List.infix_cons_iff]

theorem fst_splitSepAux (sep : Char) :
    ∀ l : List Char, (splitSepAux sep l).1 = l.takeWhile (fun c => c != sep) := by
  intro l
  induction l with
  | nil => rfl
  | cons c t ih =>
    by_cases h : c = sep
    · subst h
      simp [splitSepAux, List.takeWhile_cons]
    · simp [splitSepAux, List.takeWhile_cons, h, ih]

theorem snd_splitSepAux (sep : Char) :
    ∀ l : List Char,
      (splitSepAux sep l).2 =
        (match l.dropWhile (fun c => c != sep) with
         | [] => ([] : List (List Char))
         | _ :: t => (splitSepAux sep t).1 :: (splitSepAux sep t).2) := by
  intro l
  induction l with
  | nil => rfl
  | cons c t ih =>
    by_cases h : c = sep
    · subst h
      simp [splitSepAux, List.dropWhile_cons]
    · simp [splitSepAux, List.dropWhile_cons, h, ih]

theorem second_field (sep : Char) (l : List Char) :
    (pySplitSep sep l)[1]? =
      (match l.dropWhile (fun c => c != sep) with
       | [] => none
       | _ :: t => some (t.takeWhile (fun c => c != sep))) := by
  unfold pySplitSep
  rw [List.getElem?_cons_succ, ← List.head?_eq_getElem?, snd_splitSepAux]
  cases hd : l.dropWhile (fun c => c != sep) with
  | nil => rfl
  | cons x t => simp [fst_splitSepAux]

theorem mem_snd_splitSepAux_piece (sep : Char) :
    ∀ (s w : List Char), w ∈ (splitSepAux sep s).2 → w <:+: s := by
  intro s
  induction s with
  | nil => intro w hw; exact absurd hw (List.not_mem_nil w)
  | cons c t ih =>
    intro w hw
    by_cases h : c = sep
    · subst h
      rw [show (splitSepAux c (c :: t)).2 =
            (splitSepAux c t).1 :: (splitSepAux c t).2 from by
          simp [splitSepAux]] at hw
      rcases List.mem_cons.1 hw with h1 | h1
      · subst h1
        rw [fst_splitSepAux]
        have hpre := List.takeWhile_prefix (fun x => x != c) (l := t)
        exact List.infix_cons hpre.isInfix
      · exact List.infix_cons (ih w h1)
    · rw [show (splitSepAux sep (c :: t)).2 = (splitSepAux sep t).2 from by
          simp [splitSepAux, h]] at hw
      exact List.infix_cons (ih w hw)

theorem pySplitSep_member_piece {sep : Char} {s w : List Char}
    (hw : w ∈ pySplitSep sep s) : w <:+: s := by
  rcases List.mem_cons.1 hw with h1 | h1
  · subst h1
    rw [fst_splitSepAux]
    have hpre := List.takeWhile_prefix (fun c => c != sep) (l := s)
    exact hpre.isInfix
  · exact mem_snd_splitSepAux_piece sep s w h1

theorem subIn_of_member {sep : Char} {s w n : List Char}
    (hw : w ∈ pySplitSep sep s) (hn : subIn n w = true) : subIn n s = true := by
  rw [subIn_correct] at hn ⊢
  exact hn.trans (pySplitSep_member_piece hw)

/-! ### Claim C4 -/

/-- Claim C4 is false as stated: on the text "MATCH SCORE:50:60" the
code parses the field between the first and second colons and yields 50,
while "everything after the first colon" is "50:60", which does not
parse as an integer and would trigger the fallback. -/
theorem C4_counterexample :
    ¬ (parse_match_score "MATCH SCORE:50:60".toList =
        claimParse "MATCH SCORE:50:60".toList) := by
  decide

/-- Claim C4 amended: the scan takes the first line containing
"MATCH SCORE" and parses the text between the first and second colons
(not everything after the first colon), stripped of whitespace and '%',
as an integer; it yields nothing whenever no such line exists or the
split/parse fails — in particular for any text lacking "MATCH SCORE" —
and yields 73 when the first matching line is "MATCH SCORE: 73%". -/
theorem C4_score_line_parse :
    (∀ s : List Char, parse_match_score s = specParseBetween s)
    ∧ (∀ s : List Char, subIn matchScoreTag s = false → parse_match_score s = none)
    ∧ parse_match_score "MATCH SCORE: 73%\nStrong keyword overlap.".toList = some 73 := by
  refine ⟨?_, ?_, by decide⟩
  · intro s
    cases hc : (pySplitSep '\n' s).filter (fun l => subIn matchScoreTag l) with
    | nil =>
      have hfind : (pySplitSep '\n' s).find? (fun l => subIn matchScoreTag l) = none := by
        rw [← List.filter_head?, hc]
        rfl
      simp [parse_match_score, specParseBetween, hc, hfind]
    | cons l rest =>
      have hfind : (pySplitSep '\n' s).find? (fun l => subIn matchScoreTag l) = some l := by
        rw [← List.filter_head?, hc]
        rfl
      simp only [parse_match_score, specParseBetween, hc, hfind]
      rw [second_field]
      unfold afterFirstColon
      cases hd : l.dropWhile (fun c => c != ':') with
      | nil => rfl
      | cons x t => rfl
  · intro s h
    have hnil : (pySplitSep '\n' s).filter (fun l => subIn matchScoreTag l) = [] := by
      rw [List.filter_eq_nil_iff]
      intro l hl hsub
      have htrue := subIn_of_member hl hsub
      rw [h] at htrue
      exact absurd htrue (by decide)
    simp [parse_match_score, hnil]

/-- Witness for `C4_score_line_parse` at concrete inputs: a text without
"MATCH SCORE" parses to nothing. -/
theorem C4_score_line_parse_witness :
    parse_match_score "Great resume overall.".toList = none :=
  C4_score_line_parse.2.1 _ (by decide)

/-! ### PDF rendering — `document_processor.create_pdf`
(`src/document_processor.py`, lines 133–234) -/

/-- One `drawString` call: the page it lands on, its coordinates, and
the text drawn. -/
structure DrawOp where
  page : ℕ
  x : ℚ
  y : ℚ
  txt : List Char
deriving DecidableEq

/-- Cursor start: `height - 50` for letter height 792 (line 159). -/
def topY : ℚ := 742

/-- The page margin (line 161). -/
def pdfMargin : ℚ := 50

/-- The line height (line 160). -/
def lineH : ℚ := 14

/-- The usable line width: `width - 2*margin` for letter width 612
(line 162). -/
def usableW : ℚ := 512

/-- Font metrics are external (reportlab's `stringWidth`); the model is
parametric in them.  The width may depend on the paragraph class (which
determines font name and size) and on the string measured. -/
def Width : Type := PClass → List Char → ℚ

/-- Canvas state: current page, cursor height, and the draws so far.
Python floats are modelled as exact rationals; the only constant this
changes is the body spacing `14*1.3`, modelled as exactly `18.2`, on
which no claim depends. -/
structure PdfSt where
  page : ℕ
  y : ℚ
  ops : List DrawOp

/-- The page-break check (`if y_position < margin`, lines 202–213 and
228–231): on underflow start a new page and reset the cursor.  The font
re-selection after `showPage()` has no effect on geometry and is not
modelled. -/
def checkPage (st : PdfSt) : PdfSt :=
  if st.y < pdfMargin then { page := st.page + 1, y := topY, ops := st.ops } else st

/-- Word-wrap state: canvas state plus the line under construction. -/
structure WrapSt where
  st : PdfSt
  line : List Char

/-- One iteration of the word loop (lines 189–213): extend the candidate
line if it fits, otherwise draw the line built so far (possibly empty),
advance and page-check, and restart the line with the overflowing word. -/
def wrapWord (w : Width) (cl : PClass) (ws : WrapSt) (word : List Char) : WrapSt :=
  let test := if ws.line.isEmpty then word else ws.line ++ ' ' :: word
  if w cl test ≤ usableW then { ws with line := test }
  else
    let st1 : PdfSt :=
      { ws.st with ops := ws.st.ops ++ [⟨ws.st.page, pdfMargin, ws.st.y, ws.line⟩] }
    { st := checkPage { st1 with y := st1.y - lineH }, line := word }

/-- Class-dependent extra spacing after a paragraph's last line
(lines 219–225). -/
def spacingFor : PClass → ℚ
  | .heading => 2 * lineH
  | .skillCat => 3 / 2 * lineH
  | .specialTitle => 3 / 2 * lineH
  | .body => 13 / 10 * lineH

/-- One iteration of the paragraph loop (lines 165–231): blank paragraphs
only move the cursor down half a line (no page check!); otherwise the
class is computed, headings get 5 extra points of space above (no page
check either), the words are wrapped, the last line is drawn with the
class spacing, and the bottom margin is re-checked. -/
def pdfPara (w : Width) (st : PdfSt) (p : List Char) : PdfSt :=
  if isBlank p then { st with y := st.y - lineH / 2 }
  else
    let cl := classify p
    let st0 := if cl = PClass.heading then { st with y := st.y - 5 } else st
    let fin := (wsplit p).foldl (wrapWord w cl) { st := st0, line := [] }
    let st1 :=
      if fin.line.isEmpty then fin.st
      else
        { fin.st with
          ops := fin.st.ops ++ [⟨fin.st.page, pdfMargin, fin.st.y, fin.line⟩],
          y := fin.st.y - spacingFor cl }
    checkPage st1

/-- Function `create_pdf` (lines 133–234): the sequence of drawString calls. -/
def create_pdf (w : Width) (t : List Char) : List DrawOp :=
  ((pySplitSep '\n' t).foldl (pdfPara w) { page := 0, y := topY, ops := [] }).ops

/-- Every draw lies at or above the bottom margin. -/
def drawsAboveMargin (ops : List DrawOp) : Prop :=
  ∀ op ∈ ops, pdfMargin ≤ op.y

theorem checkPage_y (st : PdfSt) : pdfMargin ≤ (checkPage st).y := by
  unfold checkPage
  split_ifs with h
  · norm_num [topY, pdfMargin]
  · exact le_of_not_lt h

theorem checkPage_ops (st : PdfSt) : (checkPage st).ops = st.ops := by
  unfold checkPage
  split_ifs <;> rfl

theorem wrapWord_inv (w : Width) (cl : PClass) (word : List Char) (ws : WrapSt)
    (h1 : pdfMargin ≤ ws.st.y) (h2 : drawsAboveMargin ws.st.ops) :
    pdfMargin ≤ (wrapWord w cl ws word).st.y ∧
      drawsAboveMargin (wrapWord w cl ws word).st.ops := by
  simp only [wrapWord]
  by_cases hfit : w cl (if ws.line.isEmpty then word else ws.line ++ ' ' :: word) ≤ usableW
  · rw [if_pos hfit]
    exact ⟨h1, h2⟩
  · rw [if_neg hfit]
    refine ⟨checkPage_y _, ?_⟩
    rw [checkPage_ops]
    intro op hop
    rcases List.mem_append.1 hop with h3 | h3
    · exact h2 op h3
    · rw [List.mem_singleton.1 h3]
      exact h1

theorem foldl_wrapWord_inv (w : Width) (cl : PClass) :
    ∀ (words : List (List Char)) (ws : WrapSt),
      pdfMargin ≤ ws.st.y → drawsAboveMargin ws.st.ops →
      pdfMargin ≤ ((words.foldl (wrapWord w cl) ws).st.y) ∧
        drawsAboveMargin ((words.foldl (wrapWord w cl) ws).st.ops) := by
  intro words
  induction words with
  | nil => intro ws h1 h2; exact ⟨h1, h2⟩
  | cons wd rest ih =>
    intro ws h1 h2
    have h3 := wrapWord_inv w cl wd ws h1 h2
    exact ih _ h3.1 h3.2

theorem pdfPara_inv (w : Width) (p : List Char) (st : PdfSt)
    (hb : isBlank p = false) (hcl : classify p ≠ PClass.heading)
    (h1 : pdfMargin ≤ st.y) (h2 : drawsAboveMargin st.ops) :
    pdfMargin ≤ (pdfPara w st p).y ∧ drawsAboveMargin (pdfPara w st p).ops := by
  simp only [pdfPara]
  rw [if_neg (by rw [hb]; exact Bool.false_ne_true), if_neg hcl]
  obtain ⟨hy, hops⟩ := foldl_wrapWord_inv w (classify p) (wsplit p)
    { st := st, line := [] } h1 h2
  by_cases hline :
      ((wsplit p).foldl (wrapWord w (classify p)) { st := st, line := [] }).line.isEmpty
  · rw [if_pos hline]
    refine ⟨checkPage_y _, ?_⟩
    rw [checkPage_ops]
    exact hops
  · rw [if_neg hline]
    refine ⟨checkPage_y _, ?_⟩
    rw [checkPage_ops]
    intro op hop
    rcases List.mem_append.1 hop with h3 | h3
    · exact hops op h3
    · rw [List.mem_singleton.1 h3]
      exact hy

theorem foldl_pdfPara_inv (w : Width) :
    ∀ (paras : List (List Char)) (st : PdfSt),
      (∀ p ∈ paras, isBlank p = false ∧ classify p ≠ PClass.heading) →
      pdfMargin ≤ st.y → drawsAboveMargin st.ops →
      pdfMargin ≤ ((paras.foldl (pdfPara w) st).y) ∧
        drawsAboveMargin ((paras.foldl (pdfPara w) st).ops) := by
  intro paras
  induction paras with
  | nil => intro st _ h1 h2; exact ⟨h1, h2⟩
  | cons p rest ih =>
    intro st hall h1 h2
    have hp := hall p (List.mem_cons_self _ _)
    have h3 := pdfPara_inv w p st hp.1 hp.2 h1 h2
    exact ih _ (fun q hq => hall q (List.mem_cons_of_mem _ hq)) h3.1 h3.2

/-! ### Claim C7 -/

/-- Claim C7 is false as stated: after 100 blank paragraphs (each moving
the cursor down half a line with no page-break check) the cursor sits at
y = 42, below the 50-point bottom margin, and the next paragraph's text
is drawn there.  The width function 0 (every candidate line fits) is a
sound stand-in for real metrics, under which "hello" also fits. -/
theorem C7_counterexample :
    ¬ drawsAboveMargin
        (create_pdf (fun _ _ => 0) (List.replicate 100 '\n' ++ "hello".toList)) := by
  intro h
  have hmem : (⟨0, pdfMargin, 42, "hello".toList⟩ : DrawOp) ∈
      create_pdf (fun _ _ => 0) (List.replicate 100 '\n' ++ "hello".toList) := by
    with_unfolding_all decide
  have h42 := h _ hmem
  norm_num [pdfMargin] at h42

/-- Claim C7 amended: the bottom-margin check is applied after advancing
past a committed wrapped line and after the class-dependent spacing that
follows a paragraph, but not after the half-line advance of a blank
paragraph nor after the 5-point advance before a heading; consequently,
for texts whose paragraphs are all non-blank and non-heading, no text is
ever drawn below the bottom margin (while in general it can be, see the
counterexample). -/
theorem C7_pagination_restricted (w : Width) (t : List Char)
    (h : ∀ p ∈ pySplitSep '\n' t, isBlank p = false ∧ classify p ≠ PClass.heading) :
    drawsAboveMargin (create_pdf w t) := by
  unfold create_pdf
  exact (foldl_pdfPara_inv w (pySplitSep '\n' t) { page := 0, y := topY, ops := [] }
    h (by norm_num [topY, pdfMargin]) (fun op hop => absurd hop (List.not_mem_nil op))).2

/-- Witness for `C7_pagination_restricted` at a concrete text of
non-blank, non-heading paragraphs. -/
theorem C7_pagination_restricted_witness :
    drawsAboveMargin (create_pdf (fun _ _ => 0) "hi there\nplain words".toList) :=
  C7_pagination_restricted (fun _ _ => 0) _ (by decide)

end Resume
